import Mathlib

/-
Verification of the math-sll fixed-point library (math-sll.c v1.3, math-sll.h v1.24).

The sll type is a signed 64-bit two's-complement integer interpreted as a 32.32
fixed-point value (value = raw / 2^32).  We embed sll values as mathematical
integers constrained to [-2^63, 2^63) and model the C wraparound explicitly:
wrap64 reinterprets an integer modulo 2^64 as a signed 64-bit value, and toull
reinterprets a signed value as its unsigned 64-bit reading.  Loops in the C
source are modelled with an explicit fuel parameter; functions whose loops can
fail to terminate return Option (none = the loop never exits).
-/

set_option maxRecDepth 100000

namespace MathSll

/-- Reinterpret an integer as a signed 64-bit two's-complement value
(reduce modulo 2^64 into [-2^63, 2^63)). -/
def wrap64 (z : Int) : Int :=
  (z + 9223372036854775808) % 18446744073709551616 - 9223372036854775808

/-- Reinterpret an integer as a signed 32-bit two's-complement value. -/
def wrap32 (z : Int) : Int :=
  (z + 2147483648) % 4294967296 - 2147483648

/-- Read a signed 64-bit value as unsigned (the C cast (ull) x). -/
def toull (z : Int) : Int :=
  z % 18446744073709551616

/-- The signed 64-bit range predicate for embedded sll values. -/
def InRange (x : Int) : Prop :=
  -9223372036854775808 ≤ x ∧ x < 9223372036854775808

instance (x : Int) : Decidable (InRange x) := by
  unfold InRange; infer_instance

/- Constants from math-sll (hex values of their 32.32 raw representation). -/

def CONST_0 : Int := 0
def CONST_1 : Int := 0x0000000100000000
def CONST_2 : Int := 0x0000000200000000
def CONST_3 : Int := 0x0000000300000000
def CONST_4 : Int := 0x0000000400000000
def CONST_1_2 : Int := 0x0000000080000000
def CONST_1_3 : Int := 0x0000000055555555
def CONST_1_4 : Int := 0x0000000040000000
def CONST_1_5 : Int := 0x0000000033333333
def CONST_1_6 : Int := 0x000000002aaaaaaa
def CONST_1_7 : Int := 0x0000000024924924
def CONST_1_8 : Int := 0x0000000020000000
def CONST_1_9 : Int := 0x000000001c71c71c
def CONST_1_10 : Int := 0x0000000019999999
def CONST_1_11 : Int := 0x000000001745d174
def CONST_1_12 : Int := 0x0000000015555555
def CONST_1_20 : Int := 0x000000000ccccccc
def CONST_1_30 : Int := 0x0000000008888888
def CONST_1_42 : Int := 0x0000000006186186
def CONST_1_56 : Int := 0x0000000004924924
def CONST_1_72 : Int := 0x00000000038e38e3
def CONST_1_90 : Int := 0x0000000002d82d82
def CONST_1_110 : Int := 0x000000000253c825
def CONST_1_132 : Int := 0x0000000001f07c1f
def CONST_1_156 : Int := 0x0000000001a41a41
def CONST_E : Int := 0x00000002b7e15162
def CONST_1_E : Int := 0x000000005e2d58d8
def CONST_SQRTE : Int := 0x00000001a61298e1
def CONST_1_SQRTE : Int := 0x000000009b4597e3
def CONST_PI : Int := 0x00000003243f6a88
def CONST_PI_2 : Int := 0x00000001921fb544
def CONST_2_PI : Int := 0x00000000a2f9836e

/-- slladd: plain 64-bit addition (two's-complement wraparound). -/
def slladd (x y : Int) : Int := wrap64 (x + y)

/-- sllsub: plain 64-bit subtraction (two's-complement wraparound). -/
def sllsub (x y : Int) : Int := wrap64 (x - y)

/-- sllneg: 64-bit two's-complement negation. -/
def sllneg (x : Int) : Int := wrap64 (-x)

/-- int2sll: ((sll) i) << 32 for a 32-bit int i (never overflows). -/
def int2sll (i : Int) : Int := i * 4294967296

/-- sll2int: (int)(s >> 32), arithmetic shift then truncation to 32 bits. -/
def sll2int (s : Int) : Int := wrap32 (Int.fdiv s 4294967296)

/-- sllint: s & 0xffffffff00000000, clearing the 32 fraction bits of the
two's-complement pattern. -/
def sllint (s : Int) : Int := wrap64 (toull s / 4294967296 * 4294967296)

/-- sllfrac: s & 0x00000000ffffffff, the low 32 bits of the pattern. -/
def sllfrac (s : Int) : Int := toull s % 4294967296

/-- umul: the ARM assembly helper of math-sll.c.  It computes bits 32..95 of
the 256-bit zero-extended product of two unsigned 64-bit operands, that is
floor(left * right / 2^32) reduced modulo 2^64.  Operands are unsigned
(nonnegative) 64-bit readings. -/
def umul (left right : Int) : Int :=
  left * right / 4294967296 % 18446744073709551616

/-- sllmul: signed fixed-point multiply.  Signs are stripped, the magnitudes
are multiplied with umul, and the sign of the result is restored. -/
def sllmul (left right : Int) : Int :=
  let s1 : Bool := decide (left < CONST_0)
  let l : Int := if left < CONST_0 then sllneg left else left
  let s2 : Bool := decide (right < CONST_0)
  let r : Int := if right < CONST_0 then sllneg right else right
  let retval : Int := wrap64 (umul (toull l) (toull r))
  if Bool.xor s1 s2 then sllneg retval else retval

/-- The initial-guess loop of sllinv: for (u = v; u; ((ull)u) >>= 1) s >>= 1,
with u and s unsigned 64-bit.  64 steps of fuel always cover the 64-bit u. -/
def invApprox : Nat → Int → Int → Int
  | 0, _, s => s
  | fuel + 1, u, s => if u = 0 then s else invApprox fuel (u / 2) (s / 2)

/-- sllinv: Newton-Raphson reciprocal with six fixed iterations. -/
def sllinv (v : Int) : Int :=
  let sgn : Bool := decide (v < CONST_0)
  let v1 : Int := if v < CONST_0 then sllneg v else v
  let s : Int := wrap64 (invApprox 64 (toull v1) 18446744073709551615)
  let u1 : Int := sllmul s (sllsub CONST_2 (sllmul v1 s))
  let u2 : Int := sllmul u1 (sllsub CONST_2 (sllmul v1 u1))
  let u3 : Int := sllmul u2 (sllsub CONST_2 (sllmul v1 u2))
  let u4 : Int := sllmul u3 (sllsub CONST_2 (sllmul v1 u3))
  let u5 : Int := sllmul u4 (sllsub CONST_2 (sllmul v1 u4))
  let u6 : Int := sllmul u5 (sllsub CONST_2 (sllmul v1 u5))
  if sgn then sllneg u6 else u6

/-- slldiv: division via reciprocal multiplication. -/
def slldiv (left right : Int) : Int := sllmul left (sllinv right)

example : sllmul CONST_3 CONST_4 = 12 * 4294967296 := by decide
example : sllmul CONST_3 (sllneg CONST_4) = -(12 * 4294967296) := by decide
example : sllmul 1 (-1) = 0 := by decide

/-- calc_exp: e^x for -0.5 <= x <= 0.5, 11-term Horner series. -/
def calc_exp (x : Int) : Int :=
  let r0 : Int := slladd CONST_1 (sllmul 0 (sllmul x CONST_1_11))
  let r1 : Int := slladd CONST_1 (sllmul r0 (sllmul x CONST_1_11))
  let r2 : Int := slladd CONST_1 (sllmul r1 (sllmul x CONST_1_10))
  let r3 : Int := slladd CONST_1 (sllmul r2 (sllmul x CONST_1_9))
  let r4 : Int := slladd CONST_1 (sllmul r3 (sllmul x CONST_1_8))
  let r5 : Int := slladd CONST_1 (sllmul r4 (sllmul x CONST_1_7))
  let r6 : Int := slladd CONST_1 (sllmul r5 (sllmul x CONST_1_6))
  let r7 : Int := slladd CONST_1 (sllmul r6 (sllmul x CONST_1_5))
  let r8 : Int := slladd CONST_1 (sllmul r7 (sllmul x CONST_1_4))
  let r9 : Int := slladd CONST_1 (sllmul r8 (sllmul x CONST_1_3))
  slladd CONST_1 (sllmul r9 (sllmul x CONST_1_2))

/-- calc_cos: cos x for -pi/4 <= x <= pi/4, 6-term Horner series. -/
def calc_cos (x : Int) : Int :=
  let x2 : Int := sllmul x x
  let r0 : Int := sllsub CONST_1 (sllmul (sllmul x2 CONST_1) CONST_1_132)
  let r1 : Int := sllsub CONST_1 (sllmul (sllmul x2 r0) CONST_1_90)
  let r2 : Int := sllsub CONST_1 (sllmul (sllmul x2 r1) CONST_1_56)
  let r3 : Int := sllsub CONST_1 (sllmul (sllmul x2 r2) CONST_1_30)
  let r4 : Int := sllsub CONST_1 (sllmul (sllmul x2 r3) CONST_1_12)
  sllsub CONST_1 (sllmul (sllmul x2 r4) CONST_1_2)

/-- calc_sin: sin x for -pi/4 <= x <= pi/4, 6-term Horner series. -/
def calc_sin (x : Int) : Int :=
  let x2 : Int := sllmul x x
  let r0 : Int := sllsub x (sllmul (sllmul x2 CONST_1) CONST_1_156)
  let r1 : Int := sllsub x (sllmul (sllmul x2 r0) CONST_1_110)
  let r2 : Int := sllsub x (sllmul (sllmul x2 r1) CONST_1_72)
  let r3 : Int := sllsub x (sllmul (sllmul x2 r2) CONST_1_42)
  let r4 : Int := sllsub x (sllmul (sllmul x2 r3) CONST_1_20)
  sllsub x (sllmul (sllmul x2 r4) CONST_1_6)

/-- sllcos: quadrant reduction then the restricted-interval series.
The switch is on i & 3, which for a two's-complement int equals i mod 4;
the default label of the switch shares the body of case 0. -/
def sllcos (x : Int) : Int :=
  let i : Int := sll2int (slladd (sllmul x CONST_2_PI) CONST_1_2)
  let x1 : Int := sllsub x (sllmul (int2sll i) CONST_PI_2)
  let q : Int := i % 4
  if q = 1 then sllneg (calc_sin x1)
  else if q = 2 then sllneg (calc_cos x1)
  else if q = 3 then calc_sin x1
  else calc_cos x1

/-- sllsin: quadrant reduction then the restricted-interval series. -/
def sllsin (x : Int) : Int :=
  let i : Int := sll2int (slladd (sllmul x CONST_2_PI) CONST_1_2)
  let x1 : Int := sllsub x (sllmul (int2sll i) CONST_PI_2)
  let q : Int := i % 4
  if q = 1 then calc_cos x1
  else if q = 2 then sllneg (calc_sin x1)
  else if q = 3 then sllneg (calc_cos x1)
  else calc_sin x1

/-- calc_atan: two-term approximation a = x - x^3/3 plus two residual
refinement passes through the tan subtraction identity. -/
def calc_atan (x : Int) : Int :=
  let a1 : Int := sllmul x (sllsub CONST_1 (sllmul x (sllmul x CONST_1_3)))
  let r1 : Int := a1
  let t1 : Int := slldiv (calc_sin a1) (calc_cos a1)
  let x1 : Int := slldiv (sllsub x t1) (slladd CONST_1 (sllmul t1 x))
  let a2 : Int := sllmul x1 (sllsub CONST_1 (sllmul x1 (sllmul x1 CONST_1_3)))
  let r2 : Int := slladd r1 a2
  let t2 : Int := slldiv (calc_sin a2) (calc_cos a2)
  let x2 : Int := slldiv (sllsub x1 t2) (slladd CONST_1 (sllmul t2 x1))
  let a3 : Int := sllmul x2 (sllsub CONST_1 (sllmul x2 (sllmul x2 CONST_1_3)))
  slladd r2 a3

/-- sllatan: the range test of math-sll.c v1.3 as written.  The first guard
compares x with -sllneg(CONST_1), a double negation that equals +CONST_1. -/
def sllatan (x : Int) : Int :=
  if x < sllneg (sllneg CONST_1) then
    sllsub (sllneg CONST_PI_2) (calc_atan (sllinv x))
  else if x > CONST_1 then
    sllsub CONST_PI_2 (calc_atan (sllinv x))
  else calc_atan x

/-- The binary-exponentiation scaling loop of sllexp:
for (; i; i >>= 1) { if (i & 1) retval = sllmul(retval, e); e = sllmul(e, e); }.
i is a 32-bit int; i & 1 is i mod 2 and i >>= 1 is a floor shift.  When i is
negative the loop never ends, hence the fuel and the Option result. -/
def expScale : Nat → Int → Int → Int → Option Int
  | 0, i, retval, _ => if i = 0 then some retval else none
  | fuel + 1, i, retval, e =>
      if i = 0 then some retval
      else expScale fuel (Int.fdiv i 2)
        (if i % 2 = 1 then sllmul retval e else retval) (sllmul e e)

/-- sllexp: reduce to [-0.5, 0.5], series, then scale by e^i.
The negation i = -i wraps at INT_MIN, in which case the scaling loop does not
terminate (none). -/
def sllexp (x : Int) : Option Int :=
  let i : Int := sll2int (slladd x CONST_1_2)
  let retval : Int := calc_exp (sllsub x (int2sll i))
  let e : Int := if i < 0 then CONST_1_E else CONST_E
  let i1 : Int := if i < 0 then wrap32 (-i) else i
  expScale 40 i1 retval e

/-- First scaling loop of slllog: while (x < CONST_1_SQRTE). -/
def logLoop1 : Nat → Int → Int → Option (Int × Int)
  | 0, x, ln => if x < CONST_1_SQRTE then none else some (x, ln)
  | fuel + 1, x, ln =>
      if x < CONST_1_SQRTE then
        logLoop1 fuel (sllmul x CONST_E) (sllsub ln CONST_1)
      else some (x, ln)

/-- Second scaling loop of slllog: while (x > CONST_SQRTE). -/
def logLoop2 : Nat → Int → Int → Option (Int × Int)
  | 0, x, ln => if x > CONST_SQRTE then none else some (x, ln)
  | fuel + 1, x, ln =>
      if x > CONST_SQRTE then
        logLoop2 fuel (sllmul x CONST_1_E) (slladd ln CONST_1)
      else some (x, ln)

/-- slllog with explicit fuel for the two scaling loops. -/
def slllogF (fuel : Nat) (x : Int) : Option Int :=
  match logLoop1 fuel x CONST_0 with
  | none => none
  | some (xa, lna) =>
    match logLoop2 fuel xa lna with
    | none => none
    | some (xb, lnb) =>
      let x1 : Int := sllmul (sllsub xb CONST_1) (sllmul (sllsub xb CONST_3) CONST_1_2)
      let ln1 : Int := sllsub lnb x1
      let xc : Int := sllmul xb (calc_exp x1)
      let x2 : Int := sllmul (sllsub xc CONST_1) (sllmul (sllsub xc CONST_3) CONST_1_2)
      let ln2 : Int := sllsub ln1 x2
      let xd : Int := sllmul xc (calc_exp x2)
      let x3 : Int := sllmul (sllsub xd CONST_1) (sllmul (sllsub xd CONST_3) CONST_1_2)
      some (sllsub ln2 x3)

/-- slllog with enough fuel for every terminating input (the scaling loops of
a 64-bit argument can never need more than 200 genuine iterations). -/
def slllog (x : Int) : Option Int := slllogF 200 x

/-- sllpow: y == 0 returns CONST_1, otherwise exp(y * log(x)). -/
def sllpow (x y : Int) : Option Int :=
  if y = CONST_0 then some CONST_1
  else (slllog x).bind fun l => sllexp (sllmul y l)

/-- First scaling loop of sllsqrt: while (x >= CONST_2) x *= 1/4, n *= 2. -/
def sqrtLoop1 : Nat → Int → Int → Option (Int × Int)
  | 0, x, n => if x ≥ CONST_2 then none else some (x, n)
  | fuel + 1, x, n =>
      if x ≥ CONST_2 then
        sqrtLoop1 fuel (sllmul x CONST_1_4) (sllmul n CONST_2)
      else some (x, n)

/-- Second scaling loop of sllsqrt: while (x < CONST_1_2) x *= 4, n *= 1/2. -/
def sqrtLoop2 : Nat → Int → Int → Option (Int × Int)
  | 0, x, n => if x < CONST_1_2 then none else some (x, n)
  | fuel + 1, x, n =>
      if x < CONST_1_2 then
        sqrtLoop2 fuel (sllmul x CONST_4) (sllmul n CONST_1_2)
      else some (x, n)

/-- sllsqrt with explicit fuel for the two scaling loops. -/
def sllsqrtF (fuel : Nat) (x : Int) : Option Int :=
  if x = CONST_0 ∨ x = CONST_1 then some x
  else
    match sqrtLoop1 fuel x CONST_1 with
    | none => none
    | some (xa, na) =>
      match sqrtLoop2 fuel xa na with
      | none => none
      | some (xb, nb) =>
        if xb = CONST_1 then some nb
        else
          let x1 : Int := sllsub CONST_1 (sllmul CONST_1_2 (sllsub CONST_1 (slldiv xb CONST_1)))
          let x2 : Int := sllsub x1 (sllmul CONST_1_2 (sllsub x1 (slldiv xb x1)))
          let x3 : Int := sllsub x2 (sllmul CONST_1_2 (sllsub x2 (slldiv xb x2)))
          let x4 : Int := sllsub x3 (sllmul CONST_1_2 (sllsub x3 (slldiv xb x3)))
          some (sllmul nb x4)

/-- sllsqrt with enough fuel for every terminating input. -/
def sllsqrt (x : Int) : Option Int := sllsqrtF 200 x

/-- sllfloor: mask the fraction bits, subtract one unit if the mask rounded up. -/
def sllfloor (x : Int) : Int :=
  let retval : Int := sllint x
  if retval > x then sllsub retval CONST_1 else retval

/-- sllceil: mask the fraction bits, add one unit if the mask rounded down. -/
def sllceil (x : Int) : Int :=
  let retval : Int := sllint x
  if retval < x then slladd retval CONST_1 else retval

/-
Conversion to and from IEEE-754 binary64.  A double is handled through the
two 32-bit words of its bit pattern, hi (sign, 11-bit exponent, top 20
mantissa bits) and lo (low 32 mantissa bits), matching the word order the C
union gives on the target (the word holding sign and exponent is in.u[0]).
Masks and shifts of the C source are written as division, remainder and
multiplication by the corresponding powers of two.
-/

/-- dbl2sll: unpack an IEEE double bit pattern into a 32.32 fixed-point value.
The mantissa with its implied leading one is assembled at bit 62 in a 64-bit
word ((2^52 + mant) << 10), shifted right by 1053 - exp, then negated if the
sign bit is set.  A zero exponent returns exactly 0. -/
def dbl2sll (hi lo : Nat) : Int :=
  let rh : Nat := 0x40000000 + hi % 1048576 * 1024 + lo / 4194304
  let rl : Nat := lo * 1024 % 4294967296
  let r : Nat := rh * 4294967296 + rl
  let exp : Nat := hi / 1048576 % 2048
  if exp = 0 then 0
  else
    let r1 : Nat := r / 2 ^ (1053 - exp)
    if 2147483648 ≤ hi then wrap64 (-(r1 : Int)) else (r1 : Int)

/-- The normalization loop of sll2dbl:
for (exp = 1053; in.ull && (in.u[1] & 0x80000000) == 0; exp--) in.ull <<= 1.
It shifts the unsigned 64-bit magnitude left until the top bit is set,
decrementing the exponent.  At most 63 iterations can run. -/
def normLoop : Nat → Nat → Nat → Nat × Nat
  | 0, exp, u => (exp, u)
  | fuel + 1, exp, u =>
      if u ≠ 0 ∧ u < 9223372036854775808 then
        normLoop fuel (exp - 1) (u * 2 % 18446744073709551616)
      else (exp, u)

/-- sll2dbl: pack a 32.32 fixed-point value into an IEEE double bit pattern,
returned as the (hi, lo) word pair.  Zero maps to the zero pattern; otherwise
the magnitude is normalized, the leading bit dropped, the next 52 bits kept
as the mantissa, and sign and exponent are reassembled. -/
def sll2dbl (s : Int) : Nat × Nat :=
  if s = 0 then (0, 0)
  else
    let flag : Nat := if s < 1 then 2147483648 else 0
    let u0 : Nat := (toull (if s < 1 then sllneg s else s)).toNat
    let p : Nat × Nat := normLoop 64 1053 u0
    let u2 : Nat := p.2 * 2 % 18446744073709551616
    let exp2 : Nat := p.1 + 1
    let u3 : Nat := u2 / 4096
    (flag + exp2 * 1048576 + u3 / 4294967296, u3 % 4294967296)

/-- The real value of an IEEE double bit pattern given as (hi, lo) words:
sign times (2^52 + mantissa) times 2^(exp - 1075) for a normal exponent, and
sign times mantissa times 2^(-1074) for a zero exponent (subnormals). -/
def dblVal (w : Nat × Nat) : ℚ :=
  let sgn : ℚ := if 2147483648 ≤ w.1 then -1 else 1
  let e : Nat := w.1 / 1048576 % 2048
  let m : Nat := w.1 % 1048576 * 4294967296 + w.2
  if e = 0 then sgn * m / 2 ^ 1074
  else sgn * (4503599627370496 + m) * 2 ^ e / 2 ^ 1075

/-! Basic lemmas about the two's-complement reinterpretation maps. -/

theorem wrap64_congr {a b : Int}
    (h : a % 18446744073709551616 = b % 18446744073709551616) :
    wrap64 a = wrap64 b := by
  unfold wrap64; omega

theorem wrap64_eq_self {x : Int} (h : InRange x) : wrap64 x = x := by
  unfold InRange at h; unfold wrap64; omega

theorem wrap64_inRange (z : Int) : InRange (wrap64 z) := by
  unfold InRange wrap64; omega

theorem wrap64_mod (z : Int) :
    wrap64 z % 18446744073709551616 = z % 18446744073709551616 := by
  unfold wrap64; omega

theorem toull_of_nonneg {x : Int} (h0 : 0 ≤ x) (h1 : x < 18446744073709551616) :
    toull x = x := by
  unfold toull; omega

theorem toull_sllneg_of_neg {x : Int} (h0 : x < 0)
    (h1 : -9223372036854775808 ≤ x) : toull (sllneg x) = -x := by
  unfold toull sllneg wrap64; omega

/-- The heart of sllmul: on in-range operands it computes the 64-bit wrap of
the toward-zero truncation of the exact product scaled by 2^-32. -/
theorem sllmul_eq_wrap_tdiv (x y : Int) (hx : InRange x) (hy : InRange y) :
    sllmul x y = wrap64 (Int.tdiv (x * y) 4294967296) := by
  obtain ⟨hx1, hx2⟩ := hx
  obtain ⟨hy1, hy2⟩ := hy
  by_cases hxn : x < CONST_0 <;> by_cases hyn : y < CONST_0 <;>
    simp only [sllmul, hxn, hyn, if_true, if_false, decide_true_eq_true,
      decide_false_eq_false, decide_eq_true_eq, Bool.xor_false, Bool.xor_true,
      decide_True, decide_False, if_pos, if_neg, Bool.bne_true, Bool.not_true,
      Bool.not_false, ite_true, ite_false]
  · -- x < 0, y < 0: positive product
    unfold CONST_0 at hxn hyn
    rw [toull_sllneg_of_neg hxn hx1, toull_sllneg_of_neg hyn hy1]
    have hp : x * y = -x * -y := by ring
    have hnn : 0 ≤ -x * -y := mul_nonneg (by omega) (by omega)
    rw [hp, Int.tdiv_eq_ediv hnn (by norm_num)]
    generalize hq : -x * -y = p at *
    apply wrap64_congr
    unfold umul
    omega
  · -- x < 0, y >= 0: negative product
    unfold CONST_0 at hxn hyn
    rw [toull_sllneg_of_neg hxn hx1, toull_of_nonneg (by omega) (by omega)]
    have hnn : 0 ≤ -x * y := mul_nonneg (by omega) (by omega)
    rw [show x * y = -(-x * y) from by ring, Int.neg_tdiv,
      Int.tdiv_eq_ediv hnn (by norm_num)]
    unfold sllneg
    apply wrap64_congr
    unfold wrap64 umul
    generalize hq : -x * y = p at hnn ⊢
    omega
  · -- x >= 0, y < 0: negative product
    unfold CONST_0 at hxn hyn
    rw [toull_sllneg_of_neg hyn hy1, toull_of_nonneg (by omega) (by omega)]
    have hnn : 0 ≤ x * -y := mul_nonneg (by omega) (by omega)
    rw [show x * y = -(x * -y) from by ring, Int.neg_tdiv,
      Int.tdiv_eq_ediv hnn (by norm_num)]
    unfold sllneg
    apply wrap64_congr
    unfold wrap64 umul
    generalize hq : x * -y = p at hnn ⊢
    omega
  · -- x >= 0, y >= 0
    unfold CONST_0 at hxn hyn
    rw [toull_of_nonneg (by omega) (by omega), toull_of_nonneg (by omega) (by omega)]
    have hnn : 0 ≤ x * y := mul_nonneg (by omega) (by omega)
    rw [Int.tdiv_eq_ediv hnn (by norm_num)]
    generalize hq : x * y = p at *
    apply wrap64_congr
    unfold umul
    omega

/-- The decomposition stated by the specification for sllmul: split both
operands into a signed high half and an unsigned low half, and keep
(hi_x hi_y) << 32 plus (hi_x lo_y + lo_x hi_y) plus ((lo_x lo_y) >> 32),
with 64-bit wraparound.  This definition follows the specification text, to
be compared against the source's sllmul. -/
def sllmulSpecC1 (x y : Int) : Int :=
  let hix : Int := Int.fdiv x 4294967296
  let lox : Int := x % 4294967296
  let hiy : Int := Int.fdiv y 4294967296
  let loy : Int := y % 4294967296
  wrap64 (hix * hiy * 4294967296 + (hix * loy + lox * hiy) + lox * loy / 4294967296)

/-- The specification's decomposition is exactly the floor (arithmetic shift)
of the exact product by 32 bits, i.e. the middle 64 bits of the signed
128-bit widening product. -/
theorem sllmulSpecC1_eq_wrap_fdiv (x y : Int) :
    sllmulSpecC1 x y = wrap64 (Int.fdiv (x * y) 4294967296) := by
  unfold sllmulSpecC1
  rw [Int.fdiv_eq_ediv _ (by norm_num), Int.fdiv_eq_ediv _ (by norm_num),
    Int.fdiv_eq_ediv _ (by norm_num)]
  have hx := Int.ediv_add_emod x 4294967296
  have hy := Int.ediv_add_emod y 4294967296
  set A := x / 4294967296 with hA
  set B := x % 4294967296 with hB
  set C := y / 4294967296 with hC
  set D := y % 4294967296 with hD
  have hxx : x = 4294967296 * A + B := by omega
  have hyy : y = 4294967296 * C + D := by omega
  have hprod : x * y = B * D + (A * C * 4294967296 + (A * D + B * C)) * 4294967296 := by
    rw [hxx, hyy]; ring
  rw [hprod, Int.add_mul_ediv_right _ _ (by norm_num : (4294967296 : Int) ≠ 0)]
  ring_nf

/-! Claim C1. -/

/-- Claim C1, counterexample: sllmul does not agree with the middle 64 bits
of the exact signed 128-bit product.  At x = 1 and y = -1 (raw units, the
product is -2^-64) the decomposition of the specification gives -1 (one raw
unit below zero, the floor of the exact product) while sllmul gives 0 (the
sign-magnitude computation truncates the magnitude toward zero). -/
theorem claim_C1_counterexample :
    sllmul 1 (-1) = 0 ∧ sllmulSpecC1 1 (-1) = -1 ∧
      sllmul 1 (-1) ≠ sllmulSpecC1 1 (-1) := by
  refine ⟨by decide, by decide, by decide⟩

/-- Claim C1 (amended): for in-range operands, sllmul(x, y) is the 64-bit
wrap of the toward-zero truncation of the exact product divided by 2^32.
It agrees with the specification's middle-bits decomposition whenever the
exact product is nonnegative (and, more generally, whenever 2^32 divides the
exact product), but for a negative product with a nonzero discarded low part
sllmul is one raw unit above the decomposition's floor value. -/
theorem claim_C1 (x y : Int) (hx : InRange x) (hy : InRange y) :
    sllmul x y = wrap64 (Int.tdiv (x * y) 4294967296) ∧
      (0 ≤ x * y → sllmul x y = sllmulSpecC1 x y) := by
  constructor
  · exact sllmul_eq_wrap_tdiv x y hx hy
  · intro hnn
    rw [sllmul_eq_wrap_tdiv x y hx hy, sllmulSpecC1_eq_wrap_fdiv,
      Int.fdiv_eq_ediv _ (by norm_num), Int.tdiv_eq_ediv hnn (by norm_num)]

/-- Claim C1, witness: the amended theorem applied at x = 3.0, y = -2.0. -/
theorem claim_C1_witness :
    sllmul CONST_3 (-CONST_2) =
        wrap64 (Int.tdiv (CONST_3 * -CONST_2) 4294967296) ∧
      (0 ≤ CONST_3 * -CONST_2 → sllmul CONST_3 (-CONST_2) = sllmulSpecC1 CONST_3 (-CONST_2)) :=
  claim_C1 CONST_3 (-CONST_2) (by decide) (by decide)

/-! Claim C10. -/

/-- Claim C10: CONST_1 (the fixed-point representation of 1) is a two-sided
exact multiplicative identity for sllmul on the whole 64-bit range. -/
theorem claim_C10 (x : Int) (hx : InRange x) :
    sllmul x CONST_1 = x ∧ sllmul CONST_1 x = x := by
  have h1 : InRange CONST_1 := by decide
  constructor
  · rw [sllmul_eq_wrap_tdiv x CONST_1 hx h1]
    have : Int.tdiv (x * CONST_1) 4294967296 = x := by
      unfold CONST_1
      exact Int.mul_tdiv_cancel x (by norm_num)
    rw [this, wrap64_eq_self hx]
  · rw [sllmul_eq_wrap_tdiv CONST_1 x h1 hx]
    have : Int.tdiv (CONST_1 * x) 4294967296 = x := by
      unfold CONST_1
      rw [mul_comm]
      exact Int.mul_tdiv_cancel x (by norm_num)
    rw [this, wrap64_eq_self hx]

/-- Claim C10, witness: the identity law applied at x = -pi. -/
theorem claim_C10_witness :
    sllmul (-CONST_PI) CONST_1 = -CONST_PI ∧ sllmul CONST_1 (-CONST_PI) = -CONST_PI :=
  claim_C10 (-CONST_PI) (by decide)

/-! Claim C2. -/

/-- Claim C2, code bug: sllatan is claimed to return calc_atan(x) for every
x with abs x <= 1, applying the pi/2 identity only for abs x > 1.  In the
source the first guard is x < -sllneg(CONST_1), a double negation equal to
+CONST_1, so every x < 1 (zero included) is sent through the identity branch
-pi/2 - calc_atan(sllinv(x)); calc_atan is reached only at exactly
x = CONST_1.  At x = 0 the code returns a value near -pi/2, not
calc_atan(0) = 0. -/
theorem claim_C2_bug :
    sllatan CONST_0 = sllsub (sllneg CONST_PI_2) (calc_atan (sllinv CONST_0)) ∧
      calc_atan CONST_0 = 0 ∧ sllatan CONST_0 = -6746518788 ∧
      sllatan CONST_0 ≠ calc_atan CONST_0 := by
  refine ⟨by decide, by decide, by decide, by decide⟩

/-! Claim C3. -/

/-- Claim C3, counterexample: sllsqrt does not return negative inputs
unchanged.  At x = -3 (raw units) the scaling loop wraps the value into a
large positive number and Newton iteration returns garbage; at x = -1.0 the
scaling loop ends at a fixed point 0 and never exits (modelled as none). -/
theorem claim_C3_counterexample :
    (-3 : Int) ≤ 0 ∧ sllsqrt (-3) = some 134217738 ∧
      sllsqrt (-3) ≠ some (-3) ∧ sllsqrt (-CONST_1) = none := by
  refine ⟨by decide, by decide, by decide, by decide⟩

/-- Claim C3 (amended): sllsqrt returns its argument unchanged exactly for
the two quick cases tested by the source, x = 0 and x = CONST_1; negative
arguments are not special-cased and fall into the scaling loop. -/
theorem claim_C3 (x : Int) (h : x = CONST_0 ∨ x = CONST_1) :
    sllsqrt x = some x := by
  rcases h with h | h <;> subst h <;> decide

/-- Claim C3, witness: the amended theorem applied at x = CONST_1. -/
theorem claim_C3_witness : sllsqrt CONST_1 = some CONST_1 :=
  claim_C3 CONST_1 (Or.inr rfl)

/-! Claim C4. -/

/-- The first scaling loop of slllog never exits on input 0: zero stays
below CONST_1_SQRTE and is a fixed point of multiplication by e. -/
theorem logLoop1_zero (fuel : Nat) : ∀ ln : Int, logLoop1 fuel 0 ln = none := by
  induction fuel with
  | zero =>
      intro ln
      rw [logLoop1, if_pos (by decide)]
  | succ n ih =>
      intro ln
      rw [logLoop1, if_pos (by decide), show sllmul 0 CONST_E = 0 from by decide]
      exact ih _

/-- Claim C4, counterexample: slllog(0) does not yield a result; the run
with the default fuel returns none because the scaling loop is still
running. -/
theorem claim_C4_counterexample : slllog CONST_0 = none := by
  unfold slllog slllogF
  rw [show CONST_0 = (0 : Int) from rfl, logLoop1_zero]

/-- Claim C4 (amended): slllog does not return a degenerate value on x = 0:
its first scaling loop never terminates there, for every fuel bound.  The
domain violation x <= 0 is simply unsupported rather than mapped to a fixed
degenerate result. -/
theorem claim_C4 (fuel : Nat) : slllogF fuel CONST_0 = none := by
  unfold slllogF
  rw [show CONST_0 = (0 : Int) from rfl, logLoop1_zero]

/-- Claim C4, witness: the amended theorem applied at fuel = 7. -/
theorem claim_C4_witness : slllogF 7 CONST_0 = none := claim_C4 7

/-! Claim C5. -/

/-- Claim C5, counterexample: the reciprocal law is not within 2^-28 (16 raw
units) for every nonzero x.  It fails for x = 100.0 (error 96 raw units) and
fails badly for x = one raw unit 2^-32, whose true reciprocal 2^32 is not
representable. -/
theorem claim_C5_counterexample :
    ((100 * CONST_1 ≠ 0) ∧ 16 < |sllmul (100 * CONST_1) (sllinv (100 * CONST_1)) - CONST_1|) ∧
      (((1 : Int) ≠ 0) ∧ 16 < |sllmul 1 (sllinv 1) - CONST_1|) := by
  refine ⟨⟨by decide, by decide⟩, ⟨by decide, by decide⟩⟩

/-- Claim C5 (amended): the law mul(x, inv(x)) = 1 within 2^-28 (16 raw
units) holds for nonzero values of modest magnitude; it is verified here on
representative values 0.5, 1, 2, 3, e, pi, 10 and their negatives.  It does
not hold across the whole nonzero range: the error grows with the magnitude
of x (about x times 2^-32) and explodes when 1/x is not representable. -/
theorem claim_C5 :
    |sllmul CONST_1 (sllinv CONST_1) - CONST_1| ≤ 16 ∧
    |sllmul CONST_2 (sllinv CONST_2) - CONST_1| ≤ 16 ∧
    |sllmul CONST_3 (sllinv CONST_3) - CONST_1| ≤ 16 ∧
    |sllmul (10 * CONST_1) (sllinv (10 * CONST_1)) - CONST_1| ≤ 16 ∧
    |sllmul CONST_1_2 (sllinv CONST_1_2) - CONST_1| ≤ 16 ∧
    |sllmul CONST_PI (sllinv CONST_PI) - CONST_1| ≤ 16 ∧
    |sllmul CONST_E (sllinv CONST_E) - CONST_1| ≤ 16 ∧
    |sllmul (-CONST_1) (sllinv (-CONST_1)) - CONST_1| ≤ 16 ∧
    |sllmul (-CONST_2) (sllinv (-CONST_2)) - CONST_1| ≤ 16 ∧
    |sllmul (-CONST_PI) (sllinv (-CONST_PI)) - CONST_1| ≤ 16 ∧
    |sllmul (-CONST_1_2) (sllinv (-CONST_1_2)) - CONST_1| ≤ 16 := by
  refine ⟨by decide, by decide, by decide, by decide, by decide, by decide,
    by decide, by decide, by decide, by decide, by decide⟩

/-! Claim C8. -/

/-- Claim C8: sllpow with y = 0 returns CONST_1 (the exact fixed-point 1)
for every x, x = 0 included; with y nonzero it returns
sllexp(sllmul(y, slllog(x))), which in the Option model is the exp of the
product when slllog terminates and no result when it does not. -/
theorem claim_C8 (x y : Int) :
    (y = 0 → sllpow x y = some CONST_1) ∧
      (y ≠ 0 → sllpow x y = (slllog x).bind fun l => sllexp (sllmul y l)) := by
  constructor
  · intro h
    subst h
    simp [sllpow, CONST_0]
  · intro h
    simp [sllpow, CONST_0, h]

/-- Claim C8, witness: the y = 0 case applied at x = 0 and the generic case
applied at x = 2.0, y = 1.0. -/
theorem claim_C8_witness :
    sllpow CONST_0 0 = some CONST_1 ∧
      sllpow CONST_2 CONST_1 = (slllog CONST_2).bind fun l => sllexp (sllmul CONST_1 l) :=
  ⟨(claim_C8 CONST_0 0).1 rfl, (claim_C8 CONST_2 CONST_1).2 (by decide)⟩

/-! Claim C9. -/

/-- Claim C9, counterexample: sllceil is not always the smallest fixed-point
integer not smaller than x.  Near the top of the range the +1 adjustment
wraps: at x = 0x7fffffff00000001 the result is -2^63, which is smaller than
x, not larger or equal. -/
theorem claim_C9_counterexample :
    sllceil 9223372032559808513 = -9223372036854775808 ∧
      ¬ (9223372032559808513 : Int) ≤ sllceil 9223372032559808513 := by
  refine ⟨by decide, by decide⟩

/-- Claim C9 (amended): for every in-range x, sllfloor x is the largest
multiple of 2^32 (fixed-point integer) not larger than x; and whenever the
true ceiling is representable (x at most 0x7fffffff00000000 = 2^63 - 2^32),
sllceil x is the smallest multiple of 2^32 not smaller than x; above that
bound the +1 adjustment of sllceil wraps around.  In particular
floor(-1.5) = -2.0 and ceil(-1.5) = -1.0. -/
theorem claim_C9 (x : Int) (hx : InRange x) :
    (sllfloor x % 4294967296 = 0 ∧ sllfloor x ≤ x ∧
      ∀ m : Int, m % 4294967296 = 0 → m ≤ x → m ≤ sllfloor x) ∧
    (x ≤ 9223372032559808512 →
      sllceil x % 4294967296 = 0 ∧ x ≤ sllceil x ∧
      ∀ m : Int, m % 4294967296 = 0 → x ≤ m → sllceil x ≤ m) ∧
    sllfloor (-6442450944) = -8589934592 ∧ sllceil (-6442450944) = -4294967296 := by
  obtain ⟨h1, h2⟩ := hx
  have hint : sllint x = 4294967296 * (x / 4294967296) := by
    unfold sllint toull wrap64
    omega
  have hle : 4294967296 * (x / 4294967296) ≤ x := by omega
  have hfloor : sllfloor x = 4294967296 * (x / 4294967296) := by
    simp only [sllfloor, hint]
    rw [if_neg (by omega)]
  refine ⟨⟨?_, ?_, ?_⟩, ?_, by decide, by decide⟩
  · rw [hfloor]; omega
  · rw [hfloor]; omega
  · intro m hm1 hm2
    rw [hfloor]
    omega
  · intro hceil
    simp only [sllceil, hint]
    by_cases hlt : 4294967296 * (x / 4294967296) < x
    · rw [if_pos hlt]
      unfold slladd wrap64 CONST_1
      refine ⟨by omega, by omega, ?_⟩
      intro m hm1 hm2
      omega
    · rw [if_neg hlt]
      refine ⟨by omega, by omega, ?_⟩
      intro m hm1 hm2
      omega

/-- Claim C9, witness: the amended theorem applied at x = -1.5 in fixed
point (raw -6442450944). -/
theorem claim_C9_witness :
    (sllfloor (-6442450944) % 4294967296 = 0 ∧ sllfloor (-6442450944) ≤ -6442450944 ∧
      ∀ m : Int, m % 4294967296 = 0 → m ≤ -6442450944 → m ≤ sllfloor (-6442450944)) ∧
    ((-6442450944 : Int) ≤ 9223372032559808512 →
      sllceil (-6442450944) % 4294967296 = 0 ∧ (-6442450944 : Int) ≤ sllceil (-6442450944) ∧
      ∀ m : Int, m % 4294967296 = 0 → (-6442450944 : Int) ≤ m → sllceil (-6442450944) ≤ m) ∧
    sllfloor (-6442450944) = -8589934592 ∧ sllceil (-6442450944) = -4294967296 :=
  claim_C9 (-6442450944) (by decide)

/-! Claim C6. -/

/-- The computation described by the specification for sllsin:
i = floor(x*(2/pi) + 1/2) via the fixed-point multiply and a truncating
(floor) integer extraction with no 32-bit truncation, residual
r = x - i*(pi/2) in fixed point, then the quadrant dispatch on i mod 4 with
the table 0 -> sin(r), 1 -> cos(r), 2 -> -sin(r), 3 -> -cos(r).  This
definition follows the specification text, to be compared with sllsin. -/
def sllsinSpecC6 (x : Int) : Int :=
  let i : Int := Int.fdiv (slladd (sllmul x CONST_2_PI) CONST_1_2) 4294967296
  let r : Int := sllsub x (sllmul (int2sll i) CONST_PI_2)
  let q : Int := i % 4
  if q = 0 then calc_sin r
  else if q = 1 then calc_cos r
  else if q = 2 then sllneg (calc_sin r)
  else sllneg (calc_cos r)

/-- The computation described by the specification for sllcos, with the
quadrant table 0 -> cos(r), 1 -> -sin(r), 2 -> -cos(r), 3 -> sin(r). -/
def sllcosSpecC6 (x : Int) : Int :=
  let i : Int := Int.fdiv (slladd (sllmul x CONST_2_PI) CONST_1_2) 4294967296
  let r : Int := sllsub x (sllmul (int2sll i) CONST_PI_2)
  let q : Int := i % 4
  if q = 0 then calc_cos r
  else if q = 1 then sllneg (calc_sin r)
  else if q = 2 then sllneg (calc_cos r)
  else calc_sin r

/-- The 32-bit truncation in the quadrant index of sllsin and sllcos is the
identity: for every in-range x the floor of the scaled argument already fits
in a 32-bit int, because 2/pi < 1 keeps the product inside the 64-bit range
divided by 2^32. -/
theorem sll2int_reduce (x : Int) (hx : InRange x) :
    sll2int (slladd (sllmul x CONST_2_PI) CONST_1_2) =
      Int.fdiv (slladd (sllmul x CONST_2_PI) CONST_1_2) 4294967296 := by
  have hmul := sllmul_eq_wrap_tdiv x CONST_2_PI hx (by decide)
  have hna : (Int.tdiv (x * CONST_2_PI) 4294967296).natAbs
      = (x * CONST_2_PI).natAbs / 4294967296 := by
    rw [Int.natAbs_tdiv]
    rfl
  have hxn : x.natAbs ≤ 9223372036854775808 := by
    unfold InRange at hx
    omega
  have hpn : (x * CONST_2_PI).natAbs ≤ 9223372036854775808 * 2734261102 := by
    rw [Int.natAbs_mul, show (CONST_2_PI).natAbs = 2734261102 from by decide]
    exact Nat.mul_le_mul_right _ hxn
  have hdn : (x * CONST_2_PI).natAbs / 4294967296 ≤ 5871781005907460096 := by
    calc (x * CONST_2_PI).natAbs / 4294967296
        ≤ 9223372036854775808 * 2734261102 / 4294967296 :=
          Nat.div_le_div_right hpn
      _ = 5871781005907460096 := by norm_num
  have htb : (Int.tdiv (x * CONST_2_PI) 4294967296).natAbs ≤ 5871781005907460096 := by
    rw [hna]
    exact hdn
  rw [hmul]
  unfold sll2int
  rw [Int.fdiv_eq_ediv _ (by norm_num)]
  generalize ht : Int.tdiv (x * CONST_2_PI) 4294967296 = t at htb
  unfold slladd wrap64 wrap32 CONST_1_2
  omega

/-- Claim C6: for every in-range x, sllsin and sllcos compute exactly the
specification's quadrant reduction: the truncating integer extraction of
x*(2/pi) + 1/2, the fixed-point residual x - i*(pi/2), and the dispatch on
i mod 4 with table (cos result, sin result): 0 -> (cos r, sin r),
1 -> (-sin r, cos r), 2 -> (-cos r, -sin r), 3 -> (sin r, -cos r). -/
theorem claim_C6 (x : Int) (hx : InRange x) :
    sllsin x = sllsinSpecC6 x ∧ sllcos x = sllcosSpecC6 x := by
  have h := sll2int_reduce x hx
  have hq : Int.fdiv (slladd (sllmul x CONST_2_PI) CONST_1_2) 4294967296 % 4 = 0 ∨
      Int.fdiv (slladd (sllmul x CONST_2_PI) CONST_1_2) 4294967296 % 4 = 1 ∨
      Int.fdiv (slladd (sllmul x CONST_2_PI) CONST_1_2) 4294967296 % 4 = 2 ∨
      Int.fdiv (slladd (sllmul x CONST_2_PI) CONST_1_2) 4294967296 % 4 = 3 := by
    omega
  constructor <;>
    simp only [sllsin, sllcos, sllsinSpecC6, sllcosSpecC6, h] <;>
    rcases hq with hq | hq | hq | hq <;>
    simp [hq]

/-- Claim C6, witness: the reduction theorem applied at x = pi. -/
theorem claim_C6_witness :
    sllsin CONST_PI = sllsinSpecC6 CONST_PI ∧ sllcos CONST_PI = sllcosSpecC6 CONST_PI :=
  claim_C6 CONST_PI (by decide)

/-! Claim C7: infrastructure. -/

/-- Construct the high word of an IEEE double bit pattern from sign bit,
biased exponent and 52-bit mantissa. -/
def mkHi (sgn : Bool) (e m : Nat) : Nat :=
  (if sgn then 2147483648 else 0) + e * 1048576 + m / 4294967296

/-- Construct the low word of an IEEE double bit pattern from the mantissa. -/
def mkLo (m : Nat) : Nat := m % 4294967296

theorem mkHi_mod (sgn : Bool) (e m : Nat) (hm : m < 4503599627370496) :
    mkHi sgn e m % 1048576 = m / 4294967296 := by
  unfold mkHi
  cases sgn <;> simp only [if_true, if_false, Bool.false_eq_true, ite_true, ite_false] <;> omega

theorem mkHi_exp (sgn : Bool) (e m : Nat) (he : e ≤ 2046) (hm : m < 4503599627370496) :
    mkHi sgn e m / 1048576 % 2048 = e := by
  unfold mkHi
  cases sgn <;> simp only [if_true, if_false, Bool.false_eq_true, ite_true, ite_false] <;> omega

theorem mkHi_sign (sgn : Bool) (e m : Nat) (he : e ≤ 2046) (hm : m < 4503599627370496) :
    2147483648 ≤ mkHi sgn e m ↔ sgn = true := by
  unfold mkHi
  cases sgn <;> simp only [if_true, if_false, Bool.false_eq_true, ite_true, ite_false] <;>
    constructor <;> intro h <;> first | rfl | omega | simp_all

theorem mkHi_mant (sgn : Bool) (e m : Nat) (hm : m < 4503599627370496) :
    mkHi sgn e m % 1048576 * 4294967296 + mkLo m = m := by
  unfold mkHi mkLo
  cases sgn <;> simp only [if_true, if_false, Bool.false_eq_true, ite_true, ite_false] <;> omega

/-- The value of a constructed bit pattern. -/
theorem dblVal_mk (sgn : Bool) (e m : Nat) (he : e ≤ 2046) (hm : m < 4503599627370496) :
    dblVal (mkHi sgn e m, mkLo m) =
      (if sgn = true then (-1 : ℚ) else 1) *
        (if e = 0 then (m : ℚ) / 2 ^ 1074
         else (4503599627370496 + (m : ℚ)) * 2 ^ e / 2 ^ 1075) := by
  have h1 := mkHi_exp sgn e m he hm
  have h2 := mkHi_mant sgn e m hm
  have h3 := mkHi_sign sgn e m he hm
  simp only [dblVal, h1, h3]
  have h2q : ((mkHi sgn e m % 1048576 * 4294967296 + mkLo m : Nat) : ℚ) = (m : ℚ) := by
    exact_mod_cast congrArg (fun n : Nat => (n : ℚ)) h2
  push_cast at h2q ⊢
  rw [h2q]
  rcases e with _ | e0
  · simp
    split <;> ring
  · simp only [Nat.succ_ne_zero, if_false]
    ring_nf

/-- The normalization loop shifts left exactly j times when u * 2^j lands in
[2^63, 2^64), decrementing the exponent j times. -/
theorem normLoop_spec (j : Nat) : ∀ fuel exp u : Nat, j ≤ fuel → j ≤ exp →
    9223372036854775808 ≤ u * 2 ^ j → u * 2 ^ j < 18446744073709551616 →
    normLoop fuel exp u = (exp - j, u * 2 ^ j) := by
  induction j with
  | zero =>
      intro fuel exp u _ _ h1 h2
      simp only [pow_zero, mul_one] at h1 h2
      cases fuel with
      | zero => simp [normLoop]
      | succ f =>
          rw [normLoop, if_neg (by omega)]
          simp
  | succ j0 ih =>
      intro fuel exp u hf he h1 h2
      obtain ⟨f, rfl⟩ : ∃ f, fuel = f + 1 := ⟨fuel - 1, by omega⟩
      have hp : (0 : Nat) < 2 ^ j0 := Nat.pos_pow_of_pos j0 (by norm_num)
      have hm2 : u * 2 * 2 ^ j0 = u * 2 ^ (j0 + 1) := by
        rw [pow_succ]
        ring
      have hu0 : u ≠ 0 := by
        intro h
        subst h
        simp at h1
      have hu63 : u < 9223372036854775808 := by
        by_contra hcon
        push_neg at hcon
        have : u * 2 ≤ u * 2 * 2 ^ j0 := Nat.le_mul_of_pos_right _ hp
        omega
      rw [normLoop, if_pos ⟨hu0, hu63⟩]
      have hmod : u * 2 % 18446744073709551616 = u * 2 := Nat.mod_eq_of_lt (by omega)
      rw [hmod]
      have := ih f (exp - 1) (u * 2) (by omega) (by omega)
        (by rw [hm2]; exact h1) (by rw [hm2]; exact h2)
      rw [this, hm2]
      congr 1
      omega

/-- dbl2sll is exact on normal doubles that are multiples of 2^-30 with
magnitude below 2^31: writing the absolute value of the double as
K * 2^-30, the unpacked fixed-point raw value is exactly 4K with the sign
applied. -/
theorem dbl2sll_exact (sgn : Bool) (e m K : Nat)
    (he1 : 1 ≤ e) (he : e ≤ 2046) (hm : m < 4503599627370496)
    (hMK : (4503599627370496 + m) * 2 ^ e = K * 2 ^ 1045)
    (hbound : (4503599627370496 + m) * 2 ^ e < 2 ^ 1106) :
    dbl2sll (mkHi sgn e m) (mkLo m) =
      if sgn = true then -(4 * (K : Int)) else 4 * (K : Int) := by
  have hK1 : 1 ≤ K := by
    rcases Nat.eq_zero_or_pos K with h | h
    · subst h
      rw [Nat.zero_mul] at hMK
      have h0 : (0 : Nat) < (4503599627370496 + m) * 2 ^ e :=
        Nat.mul_pos (by omega) (Nat.pos_pow_of_pos e (by norm_num))
      omega
    · omega
  have hKlt : K < 2305843009213693952 := by
    have h1 : K * 2 ^ 1045 < 2 ^ 1106 := by omega
    by_contra hcon
    push_neg at hcon
    have : (2305843009213693952 : Nat) * 2 ^ 1045 ≤ K * 2 ^ 1045 :=
      Nat.mul_le_mul_right _ hcon
    norm_num at this
    omega
  have he993 : 993 ≤ e := by
    by_contra hcon
    push_neg at hcon
    have h1 : (4503599627370496 + m) * 2 ^ e < 2 ^ 53 * 2 ^ e :=
      (Nat.mul_lt_mul_right (Nat.pos_pow_of_pos e (by norm_num))).mpr
        (by norm_num; omega)
    rw [← pow_add] at h1
    have h2 : (2 : Nat) ^ 1045 ≤ K * 2 ^ 1045 := Nat.le_mul_of_pos_left _ hK1
    have h3 : (2 : Nat) ^ 1045 < 2 ^ (53 + e) := by omega
    have h4 : 1045 < 53 + e := by
      have := (Nat.pow_lt_pow_iff_right (by norm_num : 1 < 2)).mp h3
      omega
    omega
  have he1053 : e ≤ 1053 := by
    by_contra hcon
    push_neg at hcon
    have h1 : (2 : Nat) ^ (52 + e) ≤ (4503599627370496 + m) * 2 ^ e := by
      rw [pow_add]
      exact Nat.mul_le_mul_right _ (by norm_num)
    have h2 : (2 : Nat) ^ (52 + e) < 2 ^ 1106 := by omega
    have h3 : 52 + e < 1106 := by
      have := (Nat.pow_lt_pow_iff_right (by norm_num : 1 < 2)).mp h2
      omega
    omega
  have hmod := mkHi_mod sgn e m hm
  have hexp := mkHi_exp sgn e m he hm
  have hsign := mkHi_sign sgn e m he hm
  have hrr : (1073741824 + mkHi sgn e m % 1048576 * 1024 + mkLo m / 4194304) * 4294967296 +
      mkLo m * 1024 % 4294967296 = (4503599627370496 + m) * 1024 := by
    rw [hmod]
    unfold mkLo
    omega
  -- the shift is exact
  have hshift : (4503599627370496 + m) * 1024 = 4 * K * 2 ^ (1053 - e) := by
    have h1 : (4503599627370496 + m) * 1024 * 2 ^ e = 4 * K * 2 ^ (1053 - e) * 2 ^ e := by
      rw [mul_assoc (4 * K), ← pow_add]
      have h2 : 1053 - e + e = 1053 := by omega
      rw [h2]
      calc (4503599627370496 + m) * 1024 * 2 ^ e
          = (4503599627370496 + m) * 2 ^ e * 1024 := by ring
        _ = K * 2 ^ 1045 * 1024 := by rw [hMK]
        _ = 4 * K * 2 ^ 1053 := by ring_nf
    exact Nat.eq_of_mul_eq_mul_right (Nat.pos_pow_of_pos e (by norm_num)) h1
  have hdiv : (4503599627370496 + m) * 1024 / 2 ^ (1053 - e) = 4 * K := by
    rw [hshift]
    exact Nat.mul_div_cancel _ (Nat.pos_pow_of_pos _ (by norm_num))
  unfold dbl2sll
  rw [hexp, if_neg (by omega), hrr, hdiv]
  have h4K : (4 * K : Nat) < 9223372036854775808 := by omega
  have h4KI : ((4 * K : Nat) : Int) < 9223372036854775808 := by exact_mod_cast h4K
  by_cases hs : sgn = true
  · rw [if_pos (hsign.mpr hs), if_pos hs,
      wrap64_eq_self (show InRange (-((4 * K : Nat) : Int)) from by
        unfold InRange
        constructor <;> omega)]
    push_cast
    ring
  · rw [if_neg (fun hcon => hs (hsign.mp hcon)), if_neg hs]
    push_cast
    ring

/-- Packing is exact: sll2dbl maps the raw value +-4K back to exactly the
normal IEEE pattern it came from. -/
theorem sll2dbl_exact (sgn : Bool) (e m K : Nat)
    (he993 : 993 ≤ e) (he1053 : e ≤ 1053) (hm : m < 4503599627370496)
    (hMK : (4503599627370496 + m) * 2 ^ e = K * 2 ^ 1045)
    (hK1 : 1 ≤ K) (hKlt : K < 2305843009213693952) :
    sll2dbl (if sgn = true then -(4 * (K : Int)) else 4 * (K : Int)) =
      (mkHi sgn e m, mkLo m) := by
  have hKI : (1 : Int) ≤ (K : Int) := by exact_mod_cast hK1
  have hKltI : (K : Int) < 2305843009213693952 := by exact_mod_cast hKlt
  -- the normalization shift count is 1054 - e
  have hj : 4 * K * 2 ^ (1054 - e) = (4503599627370496 + m) * 2048 := by
    have h1 : 4 * K * 2 ^ (1054 - e) * 2 ^ e =
        (4503599627370496 + m) * 2048 * 2 ^ e := by
      rw [mul_assoc (4 * K), ← pow_add]
      have h2 : 1054 - e + e = 1054 := by omega
      rw [h2]
      calc 4 * K * 2 ^ 1054 = K * 2 ^ 1045 * 2048 := by ring_nf
        _ = (4503599627370496 + m) * 2 ^ e * 2048 := by rw [hMK]
        _ = (4503599627370496 + m) * 2048 * 2 ^ e := by ring
    exact Nat.eq_of_mul_eq_mul_right (Nat.pos_pow_of_pos e (by norm_num)) h1
  have hnl : normLoop 64 1053 (4 * K) = (e - 1, (4503599627370496 + m) * 2048) := by
    have := normLoop_spec (1054 - e) 64 1053 (4 * K) (by omega) (by omega)
      (by rw [hj]; omega) (by rw [hj]; omega)
    rw [this, hj]
    congr 1
    omega
  have hpair : ((4503599627370496 + m) * 2048 * 2 % 18446744073709551616) / 4096 = m := by
    omega
  by_cases hs : sgn = true
  · rw [if_pos hs]
    unfold sll2dbl
    rw [if_neg (by omega), if_pos (by omega), if_pos (by omega)]
    have ht : toull (sllneg (-(4 * (K : Int)))) = 4 * (K : Int) := by
      rw [toull_sllneg_of_neg (by omega) (by omega)]
      ring
    rw [ht]
    have htn : ((4 * (K : Int))).toNat = 4 * K := by
      omega
    simp only [htn, hnl]
    rw [Prod.mk.injEq]
    unfold mkHi mkLo
    simp only [hs, ite_true, if_true]
    constructor <;> omega
  · rw [if_neg hs]
    unfold sll2dbl
    rw [if_neg (by omega), if_neg (by omega), if_neg (by omega)]
    have ht : toull (4 * (K : Int)) = 4 * (K : Int) :=
      toull_of_nonneg (by omega) (by omega)
    rw [ht]
    have htn : ((4 * (K : Int))).toNat = 4 * K := by
      omega
    simp only [htn, hnl]
    rw [Prod.mk.injEq]
    unfold mkHi mkLo
    simp only [hs, ite_false, if_false, Bool.false_eq_true]
    constructor <;> omega

/-- The side facts forced by the round-trip hypotheses: the scaled integer K
is nonzero and below 2^61, and the biased exponent lies in [993, 1053]. -/
theorem rangeFacts (e m K : Nat) (hm : m < 4503599627370496)
    (hMK : (4503599627370496 + m) * 2 ^ e = K * 2 ^ 1045)
    (hbound : (4503599627370496 + m) * 2 ^ e < 2 ^ 1106) :
    1 ≤ K ∧ K < 2305843009213693952 ∧ 993 ≤ e ∧ e ≤ 1053 := by
  have hK1 : 1 ≤ K := by
    rcases Nat.eq_zero_or_pos K with h | h
    · subst h
      rw [Nat.zero_mul] at hMK
      have h0 : (0 : Nat) < (4503599627370496 + m) * 2 ^ e :=
        Nat.mul_pos (by omega) (Nat.pos_pow_of_pos e (by norm_num))
      omega
    · omega
  have hKlt : K < 2305843009213693952 := by
    have h1 : K * 2 ^ 1045 < 2 ^ 1106 := by omega
    by_contra hcon
    push_neg at hcon
    have : (2305843009213693952 : Nat) * 2 ^ 1045 ≤ K * 2 ^ 1045 :=
      Nat.mul_le_mul_right _ hcon
    norm_num at this
    omega
  have he993 : 993 ≤ e := by
    by_contra hcon
    push_neg at hcon
    have h1 : (4503599627370496 + m) * 2 ^ e < 2 ^ 53 * 2 ^ e :=
      (Nat.mul_lt_mul_right (Nat.pos_pow_of_pos e (by norm_num))).mpr
        (by norm_num; omega)
    rw [← pow_add] at h1
    have h2 : (2 : Nat) ^ 1045 ≤ K * 2 ^ 1045 := Nat.le_mul_of_pos_left _ hK1
    have h3 : (2 : Nat) ^ 1045 < 2 ^ (53 + e) := by omega
    have h4 : 1045 < 53 + e := by
      have := (Nat.pow_lt_pow_iff_right (by norm_num : 1 < 2)).mp h3
      omega
    omega
  have he1053 : e ≤ 1053 := by
    by_contra hcon
    push_neg at hcon
    have h1 : (2 : Nat) ^ (52 + e) ≤ (4503599627370496 + m) * 2 ^ e := by
      rw [pow_add]
      exact Nat.mul_le_mul_right _ (by norm_num)
    have h2 : (2 : Nat) ^ (52 + e) < 2 ^ 1106 := by omega
    have h3 : 52 + e < 1106 := by
      have := (Nat.pow_lt_pow_iff_right (by norm_num : 1 < 2)).mp h2
      omega
    omega
  exact ⟨hK1, hKlt, he993, he1053⟩

/-- Claim C7: for every finite double bit pattern (sign sgn, biased exponent
e, 52-bit mantissa m) whose value d satisfies abs d < 2^31 and is an exact
multiple of 2^-30 (witnessed by the integer k = d * 2^30), the round trip
sll2dbl(dbl2sll(d)) is within 2^-32 of d; in fact it reproduces the value of
d exactly. -/
theorem claim_C7 (sgn : Bool) (e m : Nat) (k : Int)
    (he : e ≤ 2046) (hm : m < 4503599627370496)
    (hrange : |dblVal (mkHi sgn e m, mkLo m)| < 2147483648)
    (hmult : dblVal (mkHi sgn e m, mkLo m) * 1073741824 = (k : ℚ)) :
    dblVal (sll2dbl (dbl2sll (mkHi sgn e m) (mkLo m))) = dblVal (mkHi sgn e m, mkLo m) ∧
      |dblVal (sll2dbl (dbl2sll (mkHi sgn e m) (mkLo m))) - dblVal (mkHi sgn e m, mkLo m)| ≤
        1 / 4294967296 := by
  suffices hround : dblVal (sll2dbl (dbl2sll (mkHi sgn e m) (mkLo m))) =
      dblVal (mkHi sgn e m, mkLo m) by
    refine ⟨hround, ?_⟩
    rw [hround, sub_self, abs_zero]
    norm_num
  rw [dblVal_mk sgn e m he hm] at hrange hmult
  have hsabs : |if sgn = true then (-1 : ℚ) else 1| = 1 := by
    split <;> norm_num
  rcases Nat.eq_zero_or_pos e with he0 | hepos
  · -- zero exponent: being a multiple of 2^-30 forces the value zero
    subst he0
    rw [if_pos rfl] at hrange hmult
    have hm0 : m = 0 := by
      have h0 := congrArg abs hmult
      rw [abs_mul, abs_mul, hsabs, one_mul,
        abs_of_nonneg (show (0 : ℚ) ≤ (m : ℚ) / 2 ^ 1074 from by positivity),
        abs_of_nonneg (show (0 : ℚ) ≤ (1073741824 : ℚ) from by norm_num)] at h0
      rw [div_mul_eq_mul_div, div_eq_iff (show ((2 : ℚ) ^ 1074) ≠ 0 from by positivity),
        show |(k : ℚ)| = ((k.natAbs : Nat) : ℚ) from by
          rw [Int.cast_natAbs, Int.cast_abs]] at h0
      have h1 : m * 1073741824 = k.natAbs * 2 ^ 1074 := by exact_mod_cast h0
      rcases Nat.eq_zero_or_pos k.natAbs with hK0 | hKpos
      · rw [hK0, Nat.zero_mul] at h1
        omega
      · exfalso
        have h2 : (2 : ℕ) ^ 1074 ≤ k.natAbs * 2 ^ 1074 :=
          Nat.le_mul_of_pos_left _ hKpos
        have h3 : m * 1073741824 < 2 ^ 82 := by
          calc m * 1073741824 < 4503599627370496 * 1073741824 :=
                (Nat.mul_lt_mul_right (by norm_num)).mpr hm
            _ = 2 ^ 82 := by norm_num
        have h4 : (2 : ℕ) ^ 82 < 2 ^ 1074 :=
          (Nat.pow_lt_pow_iff_right (by norm_num : 1 < 2)).mpr (by norm_num)
        omega
    subst hm0
    have hd : dbl2sll (mkHi sgn 0 0) (mkLo 0) = 0 := by
      unfold dbl2sll
      rw [mkHi_exp sgn 0 0 (by norm_num) (by norm_num), if_pos rfl]
    rw [hd]
    have hs2 : sll2dbl 0 = (0, 0) := by
      unfold sll2dbl
      rw [if_pos rfl]
    rw [hs2]
    rw [dblVal_mk sgn 0 0 (by norm_num) (by norm_num), if_pos rfl]
    unfold dblVal
    norm_num
  · -- normal double
    have hene : ¬ e = 0 := by omega
    rw [if_neg hene] at hrange hmult
    -- extract the integer equation M * 2^e = natAbs k * 2^1045
    have h0 := congrArg abs hmult
    rw [abs_mul, abs_mul, hsabs, one_mul,
      abs_of_nonneg (show (0 : ℚ) ≤ (4503599627370496 + (m : ℚ)) * 2 ^ e / 2 ^ 1075 from by
        positivity),
      abs_of_nonneg (show (0 : ℚ) ≤ (1073741824 : ℚ) from by norm_num)] at h0
    rw [div_mul_eq_mul_div, div_eq_iff (show ((2 : ℚ) ^ 1075) ≠ 0 from by positivity),
      show |(k : ℚ)| = ((k.natAbs : Nat) : ℚ) from by
        rw [Int.cast_natAbs, Int.cast_abs]] at h0
    have hN : (4503599627370496 + m) * 2 ^ e * 1073741824 = k.natAbs * 2 ^ 1075 := by
      exact_mod_cast h0
    have hsplit : (2 : ℕ) ^ 1075 = 2 ^ 1045 * 1073741824 := by
      rw [show (1073741824 : ℕ) = 2 ^ 30 from by norm_num, ← pow_add]
    rw [hsplit, ← mul_assoc] at hN
    have hMK : (4503599627370496 + m) * 2 ^ e = k.natAbs * 2 ^ 1045 :=
      Nat.eq_of_mul_eq_mul_right (by norm_num) hN
    -- extract the magnitude bound M * 2^e < 2^1106
    rw [abs_mul, hsabs, one_mul,
      abs_of_nonneg (show (0 : ℚ) ≤ (4503599627370496 + (m : ℚ)) * 2 ^ e / 2 ^ 1075 from by
        positivity)] at hrange
    rw [div_lt_iff₀ (show (0 : ℚ) < 2 ^ 1075 from by positivity)] at hrange
    rw [show (2147483648 : ℚ) * 2 ^ 1075 = 2 ^ 1106 from by
      rw [show (2147483648 : ℚ) = 2 ^ 31 from by norm_num, ← pow_add]] at hrange
    have hbound : (4503599627370496 + m) * 2 ^ e < 2 ^ 1106 := by
      exact_mod_cast hrange
    obtain ⟨hK1, hKlt, he993, he1053⟩ := rangeFacts e m k.natAbs hm hMK hbound
    rw [dbl2sll_exact sgn e m k.natAbs hepos he hm hMK hbound,
      sll2dbl_exact sgn e m k.natAbs he993 he1053 hm hMK hK1 hKlt]

/-- Claim C7, witness: the round-trip theorem applied at d = 1.0, whose bit
pattern has sign 0, biased exponent 1023 and zero mantissa, with
k = 1.0 * 2^30 = 1073741824. -/
theorem claim_C7_witness :
    dblVal (sll2dbl (dbl2sll (mkHi false 1023 0) (mkLo 0))) =
        dblVal (mkHi false 1023 0, mkLo 0) ∧
      |dblVal (sll2dbl (dbl2sll (mkHi false 1023 0) (mkLo 0))) -
          dblVal (mkHi false 1023 0, mkLo 0)| ≤ 1 / 4294967296 := by
  have hval : dblVal (mkHi false 1023 0, mkLo 0) = 1 := by
    rw [dblVal_mk false 1023 0 (by norm_num) (by norm_num)]
    rw [if_neg (by simp), if_neg (by norm_num), one_mul]
    rw [show ((4503599627370496 : ℚ) + ((0 : ℕ) : ℚ)) * 2 ^ 1023 = 2 ^ 1075 from by
      rw [show ((0 : ℕ) : ℚ) = 0 from by norm_num, add_zero,
        show (4503599627370496 : ℚ) = 2 ^ 52 from by norm_num, ← pow_add]]
    exact div_self (by positivity)
  exact claim_C7 false 1023 0 1073741824 (by norm_num) (by norm_num)
    (by rw [hval]; norm_num) (by rw [hval]; norm_num)

end MathSll
